import Mathlib

/-!
# Verification of the tgcalls frame reassembler and paced-delivery controller

Shallow embedding of `src/chunked.ts` (class `Chunked`, the frame
reassembler) and of the `MediaStream` controller with its `AudioStream` /
`VideoStream` adapters.

Bytes are modelled as natural numbers, `Uint8Array`s as `List ℕ`.  The
reassembler state mirrors the private fields of `Chunked`; the readable's
pause flag is part of the state (the reassembler is the sole entity that
pauses/resumes the source during a session, mirroring `readable.isPaused()`).
The Node `EventEmitter` is modelled by returning the list of synchronously
emitted events/actions from each step, in emission order.
-/

/-- Events emitted by `Chunked` and actions it performs on its readable.
`readyEv`/`almostFin` carry the `remain` payload passed by
`this.emit("ready", this.remain)` / `this.emit("almost-finished", this.remain)`.
`pause`/`resume` are the calls `readable.pause()` / `readable.resume()`. -/
inductive CAct where
  | pause
  | resume
  | readyEv (r : ℤ)
  | almostFin (r : ℤ)
  | errorEv
deriving DecidableEq, Repr

/-- State of one `Chunked` instance: the constructor parameters
(`itemsize`, `minbuffer`, `maxbuffer`), the private fields `#data`
(frame queue, each entry a buffer of `itemsize` bytes), `#remain`
(bytes still needed to complete the tail buffer), `#finished`, `#ready`,
and the bound readable's paused flag. -/
structure CState where
  itemsize : ℕ
  minbuffer : ℕ
  maxbuffer : ℕ
  data : List (List ℕ)
  remainBytes : ℕ
  finished : Bool
  ready : Bool
  paused : Bool
deriving DecidableEq, Repr

/-- A freshly constructed `Chunked` bound to a flowing (unpaused) readable. -/
def initC (its minb maxb : ℕ) : CState :=
  ⟨its, minb, maxb, [], 0, false, false, false⟩

/-- The getter `get remain() { return this.#data.length - (this.#remain > 0 ? 1 : 0); }`. -/
def remain (s : CState) : ℤ :=
  (s.data.length : ℤ) - (if 0 < s.remainBytes then 1 else 0)

/-- The private setter `set ready(flag)`: forces the flag to `true` once
finished, and emits `"ready"`/`"almost-finished"` only on a change. -/
def setReady (s : CState) (b : Bool) : CState × List CAct :=
  if (s.finished || b) = s.ready then (s, [])
  else ({s with ready := s.finished || b},
        if s.finished || b then [CAct.readyEv (remain s)] else [CAct.almostFin (remain s)])

/-- Loop body of the generator `chunked(source, itemsize)`, with structural
recursion on a fuel bound (every iteration of the source's `while` loop
consumes at least one byte once `0 < itemsize`, so `source.length` fuel
suffices; the fuel-0 case is only reached with an empty source). -/
def chunkedAux (itemsize : ℕ) : ℕ → List ℕ → List (List ℕ × Bool)
  | 0, source => if 0 < source.length then [(source, false)] else []
  | fuel + 1, source =>
    if 0 < itemsize ∧ itemsize ≤ source.length then
      (source.take itemsize, true) :: chunkedAux itemsize fuel (source.drop itemsize)
    else if 0 < source.length then [(source, false)] else []

/-- The generator `chunked(source, itemsize)`: full `itemsize`-sized slices
flagged `true`, then the leftover (if any) flagged `false`. -/
def chunkedList (itemsize : ℕ) (source : List ℕ) : List (List ℕ × Bool) :=
  chunkedAux itemsize source.length source

/-- Processing of one `[chunk, full]` pair in the data handler's `for` loop:
a full chunk is pushed as-is; a short chunk is copied into a fresh
zero-initialised `itemsize` buffer (`tmp.set(chunk)`) and `#remain` is set. -/
def pushOne (s : CState) (p : List ℕ × Bool) : CState :=
  if p.2 then {s with data := s.data ++ [p.1]}
  else {s with data := s.data ++ [p.1 ++ List.replicate (s.itemsize - p.1.length) 0],
               remainBytes := s.itemsize - p.1.length}

def pushChunks (s : CState) (ps : List (List ℕ × Bool)) : CState :=
  ps.foldl pushOne s

/-- `TypedArray.prototype.set(src, off)` on a buffer that fits. -/
def listSet (dst : List ℕ) (off : ℕ) (src : List ℕ) : List ℕ :=
  dst.take off ++ src ++ dst.drop (off + src.length)

/-- End of the data handler: `if (this.remain > maxbuffer) readable.pause();
else this.ready = this.remain >= this.minbuffer;`. -/
def watermarkCheck (s1 : CState) : CState × List CAct :=
  if (s1.maxbuffer : ℤ) < remain s1 then ({s1 with paused := true}, [CAct.pause])
  else setReady s1 (decide ((s1.minbuffer : ℤ) ≤ remain s1))

/-- Tail of the data handler, after the leading-bytes phase: slice the
remaining data into frames, then run the watermark check. -/
def finishData (s : CState) (d : List ℕ) : CState × List CAct :=
  watermarkCheck (pushChunks s (chunkedList s.itemsize d))

/-- The leading-bytes phase of the data handler with an open tail:
`const tmp = data.slice(0, this.#remain); this.#last.set(tmp, itemsize -
this.#remain); this.#remain -= tmp.length;`. -/
def tailWrite (s : CState) (lf : List ℕ) (tmp : List ℕ) : CState :=
  {s with data := s.data.dropLast ++ [listSet lf (s.itemsize - s.remainBytes) tmp],
          remainBytes := s.remainBytes - tmp.length}

/-- The `readable.on("data", ...)` handler.  When a tail is open
(`#remain > 0`) the handler writes `data.slice(0, #remain)` into `#last`
at offset `itemsize - #remain`, decrements `#remain`, and then — exactly as
in the source — re-slices the incoming chunk at the *already decremented*
counter (`data = data.slice(this.#remain)`, after `this.#remain -=
tmp.length`), so when the tail is completed the consumed bytes are
processed again.  Returns `none` for the state in which `this.#last` is
`undefined` (`#remain > 0` with an empty queue), where the source code
would throw. -/
def dataStep (s : CState) (d : List ℕ) : Option (CState × List CAct) :=
  if 0 < s.remainBytes then
    match s.data.getLast? with
    | none => none
    | some lf =>
      if 0 < (tailWrite s lf (d.take s.remainBytes)).remainBytes then
        some (tailWrite s lf (d.take s.remainBytes), [])
      else
        some (finishData (tailWrite s lf (d.take s.remainBytes))
          (d.drop (tailWrite s lf (d.take s.remainBytes)).remainBytes))
  else some (finishData s d)

/-- `this.#data.shift()`: the state after removing the queue head. -/
def shiftQ (s : CState) : CState :=
  {s with data := s.data.tail}

/-- The getter `get latest()`: unconditionally `shift`s the queue, then
either resumes a paused source (`remain < maxbuffer`) or recomputes
readiness.  Result: (returned frame, new state, actions). -/
def popStep (s : CState) : Option (List ℕ) × CState × List CAct :=
  if (shiftQ s).paused then
    if remain (shiftQ s) < (s.maxbuffer : ℤ) then
      (s.data.head?, {shiftQ s with paused := false}, [CAct.resume])
    else (s.data.head?, shiftQ s, [])
  else
    (s.data.head?,
     (setReady (shiftQ s) (decide ((s.minbuffer : ℤ) ≤ remain (shiftQ s)))).1,
     (setReady (shiftQ s) (decide ((s.minbuffer : ℤ) ≤ remain (shiftQ s)))).2)

/-- The `readable.on("end", ...)` handler. -/
def endStep (s : CState) : CState × List CAct :=
  setReady {s with finished := true} true

/-- The `readable.on("error", ...)` handler: same state change as the end
handler (sets `#finished` and forces readiness, emitting `"ready"` if it
was not yet set), then emits `"error"`. -/
def errStep (s : CState) : CState × List CAct :=
  ((endStep s).1, (endStep s).2 ++ [CAct.errorEv])

/-- External events driving one `Chunked` session. -/
inductive CEv where
  | data (d : List ℕ)
  | pop
  | endOfSource
  | errOfSource
deriving DecidableEq, Repr

def cstep (s : CState) : CEv → Option (CState × List CAct)
  | CEv.data d => dataStep s d
  | CEv.pop => some ((popStep s).2.1, (popStep s).2.2)
  | CEv.endOfSource => some (endStep s)
  | CEv.errOfSource => some (errStep s)

/-- Run a sequence of events, returning the final state (discarding actions). -/
def runC (s : CState) : List CEv → Option CState
  | [] => some s
  | e :: es => (cstep s e).bind fun r => runC r.1 es

/-- All bytes held by the session if drained now: the content of every
complete frame in arrival order, plus the filled part of the open tail. -/
def sessionBytes (s : CState) : List ℕ :=
  if 0 < s.remainBytes then
    s.data.dropLast.flatten ++ (s.data.getLast?.getD []).take (s.itemsize - s.remainBytes)
  else s.data.flatten

/-- States of one `Chunked` session reachable from construction by data
events (the source only delivers while it is not paused), pops, end and
error.  Data events that would throw in the source (open tail with an
empty queue) have no successor state. -/
inductive CReach : CState → Prop
  | init (its minb maxb : ℕ) : CReach (initC its minb maxb)
  | dataR {s s' : CState} {d : List ℕ} {acts : List CAct} :
      CReach s → s.paused = false → dataStep s d = some (s', acts) → CReach s'
  | popR {s : CState} : CReach s → CReach (popStep s).2.1
  | endR {s : CState} : CReach s → CReach (endStep s).1
  | errR {s : CState} : CReach s → CReach (errStep s).1

/-!
## The `MediaStream` controller (`src/unnamed/part_000`)

`MediaStream` owns `#cache : Chunked | undefined`, `#timer : Interval |
undefined` and a tick callback shared by every `Interval` it ever creates.
An `Interval` (from `date-timeout-interval`) keeps firing until explicitly
stopped, whether or not the controller still references it, so the model
keeps a list of every interval created, with the controller's `#timer`
being an index into that list.  The deferred returned by `_update` is
modelled by `resolver` (the local `resolver` variable being set) and
`settled` (`some true` = resolved, `some false` = rejected).
-/

/-- States of a `date-timeout-interval` `Interval`. -/
inductive TState where
  | idle
  | running
  | pausedT
  | done
deriving DecidableEq, Repr

/-- Controller events visible outside: delivered frames (`onFrame`),
`"finish"`, `"ready"`, `"almost-finished"`, `"error"`, `"pause"(bool)`. -/
inductive MAct where
  | frameOut (f : List ℕ)
  | finishEv
  | readyEv
  | almostFinEv
  | errorEv
  | pausedSt (b : Bool)
deriving DecidableEq, Repr

structure MState where
  cache : Option CState
  timers : List TState
  timerIdx : Option ℕ
  resolver : Bool
  settled : Option Bool
deriving DecidableEq, Repr

def initM : MState := ⟨none, [], none, false, none⟩

/-- `this.#timer?.stop()` — stops the currently referenced interval, if any. -/
def stopAt (ts : List TState) : Option ℕ → List TState
  | some i => ts.set i TState.done
  | none => ts

/-- The handlers `_update` attaches to the cache:
`on("ready")` runs `resolver?.(); this.emit("ready")`;
`on("almost-finished")` re-emits;
`on("error", e)` runs `resolver?.(e); this.#timer?.stop(); this.emit("error", e)`.
`pause`/`resume` are actions on the readable, invisible to the controller. -/
def procAct (p : MState × List MAct) (a : CAct) : MState × List MAct :=
  match a with
  | CAct.readyEv _ =>
      ({p.1 with settled := if p.1.resolver then some true else p.1.settled,
                 resolver := false},
       p.2 ++ [MAct.readyEv])
  | CAct.almostFin _ => (p.1, p.2 ++ [MAct.almostFinEv])
  | CAct.errorEv =>
      ({p.1 with settled := if p.1.resolver then some false else p.1.settled,
                 resolver := false,
                 timers := stopAt p.1.timers p.1.timerIdx},
       p.2 ++ [MAct.errorEv])
  | CAct.pause => p
  | CAct.resume => p

def processCActs (m : MState) (as : List CAct) : MState × List MAct :=
  as.foldl procAct (m, [])

/-- End of the `#callback`: `if (frame) { onFrame(frame); if
(this.#cache.finished) { this.#timer?.stop(); this.emit("finish"); } }` —
the finish check runs only after a frame was forwarded, and consults only
the `finished` flag, not the queue. -/
def tickFinish (q : MState × List MAct) (fr : Option (List ℕ)) (fin : Bool) :
    MState × List MAct :=
  match fr with
  | none => q
  | some f =>
      if fin then
        ({q.1 with timers := stopAt q.1.timers q.1.timerIdx},
         q.2 ++ [MAct.frameOut f, MAct.finishEv])
      else (q.1, q.2 ++ [MAct.frameOut f])

/-- The shared `#callback`: pop `this.#cache.latest` (whose synchronously
emitted cache events are handled first), then run the frame/finished
check. -/
def tickCallback (m : MState) : MState × List MAct :=
  match m.cache with
  | none => (m, [])
  | some c =>
      tickFinish (processCActs {m with cache := some (popStep c).2.1} (popStep c).2.2)
        (popStep c).1 (popStep c).2.1.finished

/-- Controller-level events: `_update` (with the computed chunksize and
watermarks), source data/end/error reaching the current cache, a tick of
interval `i`, and the `stop`/`resume`/`pause` methods. -/
inductive MEv where
  | update (its minb maxb : ℕ)
  | dataEv (d : List ℕ)
  | endEv
  | errEv
  | tick (i : ℕ)
  | stopEv
  | resumeEv
  | pauseCall
deriving DecidableEq, Repr

/-- One controller step.  `_update` destroys the old cache (if any) and then
constructs the new `Chunked` and a new `Interval`; the *old interval is
never stopped* (the source only overwrites `this.#timer`).  A tick of
interval `i` only fires while that interval is running.  `stop()` requires
both `#timer` and `#cache` to be set. -/
def mstep (m : MState) : MEv → Option (MState × List MAct)
  | MEv.update its minb maxb =>
      some ({ cache := some (initC its minb maxb),
              timers := m.timers ++ [TState.idle],
              timerIdx := some m.timers.length,
              resolver := true,
              settled := none }, [])
  | MEv.dataEv d =>
      match m.cache with
      | none => some (m, [])
      | some c => (dataStep c d).map fun r => processCActs {m with cache := some r.1} r.2
  | MEv.endEv =>
      match m.cache with
      | none => some (m, [])
      | some c => some (processCActs {m with cache := some (endStep c).1} (endStep c).2)
  | MEv.errEv =>
      match m.cache with
      | none => some (m, [])
      | some c => some (processCActs {m with cache := some (errStep c).1} (errStep c).2)
  | MEv.tick i =>
      if m.timers[i]? = some TState.running then some (tickCallback m) else some (m, [])
  | MEv.stopEv =>
      if m.timerIdx.isSome && m.cache.isSome then
        some ({m with cache := none, timerIdx := none,
                      timers := stopAt m.timers m.timerIdx}, [MAct.finishEv])
      else some (m, [])
  | MEv.resumeEv =>
      match m.timerIdx with
      | some i =>
          match m.timers[i]? with
          | some TState.done => some (m, [])
          | none => some (m, [])
          | some _ => some ({m with timers := m.timers.set i TState.running},
                            [MAct.pausedSt false])
      | none => some (m, [])
  | MEv.pauseCall =>
      match m.timerIdx with
      | some i =>
          if m.timers[i]? = some TState.running then
            some ({m with timers := m.timers.set i TState.pausedT}, [MAct.pausedSt true])
          else some (m, [])
      | none => some (m, [])

/-- Run controller events, collecting all emitted actions in order. -/
def runM (m : MState) : List MEv → Option (MState × List MAct)
  | [] => some (m, [])
  | e :: es => (mstep m e).bind fun r => (runM r.1 es).map fun q => (q.1, r.2 ++ q.2)

/-!
## Media adapter geometry (`AudioStream.update` / `VideoStream.update`)

The adapters compute `(chunksize, cps)` from the domain parameters and call
`super._update` with them; `_update` builds the session unconditionally.
JavaScript number arithmetic on the audio path is modelled over `ℚ`.
-/

/-- The configuration `_update` hands to `new Chunked(readable, chunksize,
buffer * cps, maxbuffer * cps)`. -/
structure GCfg where
  itemsize : ℚ
  minbuffer : ℚ
  maxbuffer : ℚ
deriving DecidableEq, Repr

/-- Construction-level view of the controller: the configuration of the
current cache and the `cps` argument of every `Interval` ever created. -/
structure GState where
  cacheCfg : Option GCfg
  timerCps : List ℚ
  timerIdx : Option ℕ
deriving DecidableEq, Repr

def initG : GState := ⟨none, [], none⟩

/-- `MediaStream._update`: destroys the old cache, then constructs the new
`Chunked` and `Interval` with the supplied values — there is no validation
and no failure path. -/
def gUpdate (m : GState) (buffer maxbuffer chunksize cps : ℚ) : GState :=
  { cacheCfg := some ⟨chunksize, buffer * cps, maxbuffer * cps⟩,
    timerCps := m.timerCps ++ [cps],
    timerIdx := some m.timerCps.length }

/-- `AudioStream.update`: `cps = 100`,
`chunksize = bitsPerSample * sampleRate / 8 / cps * channelCount`. -/
def audioUpdate (m : GState) (buffer maxb bitsPerSample sampleRate channelCount : ℚ) :
    GState :=
  gUpdate m buffer maxb (bitsPerSample * sampleRate / 8 / 100 * channelCount) 100

/-- `VideoStream.update`: `cps = framerate`,
`uv_rowbytes = (width+1)/2 | 0`, `half_height = (height+1)/2 | 0`,
`chunksize = width*height + uv_rowbytes*half_height*2` (YUV420). -/
def videoUpdate (m : GState) (buffer maxb framerate : ℚ) (width height : ℕ) : GState :=
  gUpdate m buffer maxb
    ((width * height + (width + 1) / 2 * ((height + 1) / 2) * 2 : ℕ) : ℚ) framerate

/-!
## Claims
-/

/-- C1: the claim asserts that concatenating all frame bytes delivered over
a session reproduces the source byte stream.  The code violates this: with
`itemsize = 4` and chunks `[0,1,2]` and `[3,4,5,6,7]`, the data handler
re-slices the second chunk at the already-decremented `#remain`
(`data.slice(this.#remain)` after `this.#remain -= tmp.length`), so byte
`3` — already copied into the tail — is processed again.  The session holds
the 9 bytes `[0,1,2,3,3,4,5,6,7]` for an 8-byte source. -/
theorem chunked_roundtrip_code_bug :
    (runC (initC 4 2 9) [CEv.data [0, 1, 2], CEv.data [3, 4, 5, 6, 7]]).map sessionBytes
        = some [0, 1, 2, 3, 3, 4, 5, 6, 7]
    ∧ ([0, 1, 2, 3, 3, 4, 5, 6, 7] : List ℕ) ≠ [0, 1, 2, 3, 4, 5, 6, 7] := by
  decide

/-- C2: the claim asserts that chunk sizes summing to `N * itemsize + r`
leave exactly `N` complete frames.  With `itemsize = 4` and chunk sizes
`[3, 5, 4, 4]` (16 bytes, so `N = 4`, `r = 0`) the duplication bug leaves
5 complete frames (`remain = 5`), not 4. -/
theorem chunked_frame_count_code_bug :
    (runC (initC 4 2 9)
        [CEv.data [0, 1, 2], CEv.data [3, 4, 5, 6, 7],
         CEv.data [8, 9, 10, 11], CEv.data [12, 13, 14, 15]]).map
        (fun s => (remain s, s.remainBytes)) = some (5, 0)
    ∧ (5 : ℤ) ≠ 4 := by
  decide

/-- C3: the claim asserts `latest` returns none when no complete frame is
buffered.  After a single 3-byte chunk with `itemsize = 4` the queue holds
only the unfinished tail (`remain = 0`), yet `latest` unconditionally
`shift`s the queue and returns the zero-padded tail `[1,2,3,0]`. -/
theorem chunked_latest_returns_tail_code_bug :
    (runC (initC 4 2 9) [CEv.data [1, 2, 3]]).map
        (fun s => (remain s, (popStep s).1)) = some (0, some [1, 2, 3, 0]) := by
  decide

/-- C4: the claim asserts `remain` is never negative in reachable states.
Popping in the tail-only state removes the unfinished tail while `#remain`
still records an open tail, so `remain = 0 - 1 = -1`. -/
theorem chunked_remain_negative_code_bug :
    (runC (initC 4 2 9) [CEv.data [1, 2, 3], CEv.pop]).map remain = some (-1) := by
  decide

/-- C6 counterexample: the claim asserts `finish` fires naturally only once
the queue has drained to empty, and at most once per session under any
interleaving of ticks and `stop()`.  With `itemsize = 1`, bytes `[5,6]`,
end-of-source, and one tick: the tick pops frame `[5]` and — since
`finished` is already set — emits `finish` while frame `[6]` is still
buffered; a subsequent `stop()` (timer and cache references are both still
set) emits `finish` a second time. -/
theorem mediastream_finish_twice_cex :
    (runM initM [MEv.update 1 0 9, MEv.dataEv [5, 6], MEv.endEv, MEv.resumeEv,
        MEv.tick 0]).map
        (fun r => (r.1.cache.map CState.data, r.2.count MAct.finishEv))
        = some (some [[6]], 1)
    ∧ (runM initM [MEv.update 1 0 9, MEv.dataEv [5, 6], MEv.endEv, MEv.resumeEv,
        MEv.tick 0, MEv.stopEv]).map (fun r => r.2.count MAct.finishEv) = some 2 := by
  decide

/-- C7 counterexample: the claim asserts a `start()`/`update()` whose
computed `itemsize` is zero fails fast before any clock or reassembler is
constructed.  `AudioStream.update` with `sampleRate = 0` computes
`chunksize = 16 * 0 / 8 / 100 * 1 = 0` and nevertheless constructs both the
`Chunked` (with `itemsize = 0`) and the `Interval` — there is no failure. -/
theorem audio_update_no_validation_cex :
    (audioUpdate initG 1 3 16 0 1).cacheCfg = some ⟨0, 100, 300⟩
    ∧ (audioUpdate initG 1 3 16 0 1).timerCps = [100]
    ∧ (audioUpdate initG 1 3 16 0 1).timerIdx = some 0 := by
  refine ⟨?_, rfl, rfl⟩
  simp only [audioUpdate, gUpdate, initG, Option.some.injEq, GCfg.mk.injEq]
  norm_num

/-- C7 amended: `update()` performs no geometry validation at all — for
every supplied geometry (including zero/invalid values) the reassembler
and the clock are constructed with the computed values as-is. -/
theorem update_constructs_unconditionally :
    (∀ (m : GState) (b mb bps sr cc : ℚ),
      audioUpdate m b mb bps sr cc =
        { cacheCfg := some ⟨bps * sr / 8 / 100 * cc, b * 100, mb * 100⟩,
          timerCps := m.timerCps ++ [100], timerIdx := some m.timerCps.length })
    ∧ (∀ (m : GState) (b mb fr : ℚ) (w h : ℕ),
      videoUpdate m b mb fr w h =
        { cacheCfg := some ⟨((w * h + (w + 1) / 2 * ((h + 1) / 2) * 2 : ℕ) : ℚ),
                            b * fr, mb * fr⟩,
          timerCps := m.timerCps ++ [fr], timerIdx := some m.timerCps.length }) :=
  ⟨fun _ _ _ _ _ _ => rfl, fun _ _ _ _ _ _ => rfl⟩

/-- C8: the claim asserts the old session's clock is stopped before the new
pair is constructed.  `_update` destroys the old cache but only overwrites
`this.#timer`; after `update; resume; update; resume` the first session's
interval is still `running` alongside the new session's interval — two
ticking clocks exist concurrently under one controller. -/
theorem mediastream_old_timer_keeps_running_code_bug :
    (runM initM [MEv.update 2 1 9, MEv.resumeEv, MEv.update 2 1 9, MEv.resumeEv]).map
        (fun r => (r.1.timers, r.1.timerIdx, r.1.cache.isSome))
      = some ([TState.running, TState.running], some 1, true) := by
  decide

/-- C9: the claim asserts the deferred rejects on the first error event.
On a source error before readiness, the error handler first forces
readiness, which synchronously emits `"ready"`; the controller's ready
handler resolves the deferred *successfully* and clears the resolver, so
the subsequent reject in the error handler is a no-op: `settled = some
true` (resolved), never rejected, even though `"error"` is emitted. -/
theorem mediastream_error_resolves_deferred_code_bug :
    (runM initM [MEv.update 1 1 9, MEv.errEv]).map (fun r => (r.1.settled, r.2))
      = some (some true, [MAct.readyEv, MAct.errorEv]) := by
  decide

/-- C10 counterexample: the claim asserts a session whose source ends
before any complete frame remains to deliver never emits `finish`.  With
`itemsize = 2` and a single byte `[9]`, end-of-source leaves no complete
frame (`remain = 0`, only the unfinished tail) — yet the tick pops and
delivers the zero-padded tail `[9,0]` and emits `finish`. -/
theorem tail_only_session_emits_finish_cex :
    (runM initM [MEv.update 2 1 9, MEv.dataEv [9], MEv.endEv, MEv.resumeEv]).map
        (fun r => r.1.cache.map (fun c => (remain c, c.finished, c.remainBytes)))
        = some (some (0, true, 1))
    ∧ (runM initM [MEv.update 2 1 9, MEv.dataEv [9], MEv.endEv, MEv.resumeEv,
        MEv.tick 0]).map (fun r => (r.2.count MAct.finishEv, r.2.count (MAct.frameOut [9, 0])))
        = some (1, 1) := by
  decide

/-!
## Backpressure policy (C5)
-/

lemma setReady_fst (s : CState) (b : Bool) :
    (setReady s b).1 = s ∨ (setReady s b).1 = {s with ready := s.finished || b} := by
  unfold setReady
  split
  · exact Or.inl rfl
  · exact Or.inr rfl

lemma setReady_fields (s : CState) (b : Bool) :
    (setReady s b).1.data = s.data ∧ (setReady s b).1.remainBytes = s.remainBytes ∧
    (setReady s b).1.paused = s.paused ∧ (setReady s b).1.maxbuffer = s.maxbuffer ∧
    (setReady s b).1.minbuffer = s.minbuffer ∧ (setReady s b).1.itemsize = s.itemsize ∧
    (setReady s b).1.finished = s.finished := by
  rcases setReady_fst s b with h | h <;> rw [h] <;> exact ⟨rfl, rfl, rfl, rfl, rfl, rfl, rfl⟩

lemma remain_setReady (s : CState) (b : Bool) : remain (setReady s b).1 = remain s := by
  unfold remain
  rw [(setReady_fields s b).1, (setReady_fields s b).2.1]

lemma setReady_acts (s : CState) (b : Bool) :
    CAct.pause ∉ (setReady s b).2 ∧ CAct.resume ∉ (setReady s b).2 := by
  unfold setReady
  split
  · simp
  · split <;> simp

lemma pushOne_fields (s : CState) (p : List ℕ × Bool) :
    (pushOne s p).paused = s.paused ∧ (pushOne s p).maxbuffer = s.maxbuffer ∧
    (pushOne s p).minbuffer = s.minbuffer := by
  unfold pushOne
  split <;> exact ⟨rfl, rfl, rfl⟩

lemma pushChunks_fields (ps : List (List ℕ × Bool)) : ∀ s : CState,
    (pushChunks s ps).paused = s.paused ∧ (pushChunks s ps).maxbuffer = s.maxbuffer ∧
    (pushChunks s ps).minbuffer = s.minbuffer := by
  induction ps with
  | nil => exact fun s => ⟨rfl, rfl, rfl⟩
  | cons p ps ih =>
      intro s
      have h1 := pushOne_fields s p
      have h2 := ih (pushOne s p)
      simp only [pushChunks, List.foldl_cons] at h2 ⊢
      exact ⟨h2.1.trans h1.1, h2.2.1.trans h1.2.1, h2.2.2.trans h1.2.2⟩

lemma watermarkCheck_post (s1 : CState) :
    ((CAct.pause ∈ (watermarkCheck s1).2) ↔ ((s1.maxbuffer : ℤ) < remain s1)) ∧
    CAct.resume ∉ (watermarkCheck s1).2 ∧
    remain (watermarkCheck s1).1 = remain s1 ∧
    (watermarkCheck s1).1.maxbuffer = s1.maxbuffer ∧
    ((watermarkCheck s1).1.paused = false → remain s1 ≤ (s1.maxbuffer : ℤ)) := by
  unfold watermarkCheck
  by_cases hc : (s1.maxbuffer : ℤ) < remain s1
  · rw [if_pos hc]
    refine ⟨by simp [hc], by simp, rfl, rfl, fun hp => ?_⟩
    simp at hp
  · rw [if_neg hc]
    exact ⟨⟨fun hm => absurd hm (setReady_acts _ _).1, fun hlt => absurd hlt hc⟩,
           (setReady_acts _ _).2, remain_setReady _ _, (setReady_fields _ _).2.2.2.1,
           fun _ => not_lt.mp hc⟩

lemma finishData_post (s : CState) (d : List ℕ) :
    ((CAct.pause ∈ (finishData s d).2) ↔ ((s.maxbuffer : ℤ) < remain (finishData s d).1)) ∧
    CAct.resume ∉ (finishData s d).2 ∧
    ((finishData s d).1.paused = false →
      remain (finishData s d).1 ≤ (((finishData s d).1.maxbuffer : ℤ))) ∧
    (finishData s d).1.maxbuffer = s.maxbuffer := by
  have hpc := pushChunks_fields (chunkedList s.itemsize d) s
  obtain ⟨h1, h2, h3, h4, h5⟩ := watermarkCheck_post (pushChunks s (chunkedList s.itemsize d))
  unfold finishData
  refine ⟨?_, h2, ?_, h4.trans hpc.2.1⟩
  · rw [h3]
    rw [hpc.2.1] at h1
    exact h1
  · intro hp
    rw [h3, h4]
    exact h5 hp

lemma shiftQ_fields (s : CState) :
    (shiftQ s).paused = s.paused ∧ (shiftQ s).maxbuffer = s.maxbuffer ∧
    (shiftQ s).minbuffer = s.minbuffer ∧ (shiftQ s).remainBytes = s.remainBytes :=
  ⟨rfl, rfl, rfl, rfl⟩

lemma remain_shiftQ_le (s : CState) : remain (shiftQ s) ≤ remain s := by
  unfold remain shiftQ
  dsimp only
  have h : s.data.tail.length = s.data.length - 1 := List.length_tail s.data
  split <;> omega

lemma tailWrite_fields (s : CState) (lf tmp : List ℕ) :
    (tailWrite s lf tmp).paused = s.paused ∧ (tailWrite s lf tmp).maxbuffer = s.maxbuffer ∧
    (tailWrite s lf tmp).minbuffer = s.minbuffer :=
  ⟨rfl, rfl, rfl⟩

lemma remain_tailWrite (s : CState) (lf tmp : List ℕ) (hne : s.data ≠ [])
    (hrb : 0 < s.remainBytes) (hr2 : 0 < (tailWrite s lf tmp).remainBytes) :
    remain (tailWrite s lf tmp) = remain s := by
  have hpos : 0 < s.data.length := List.length_pos.mpr hne
  have hlen : (s.data.dropLast ++
      [listSet lf (s.itemsize - s.remainBytes) tmp]).length = s.data.length := by
    rw [List.length_append, List.length_dropLast]
    simp
    omega
  unfold remain
  rw [if_pos hr2, if_pos hrb]
  unfold tailWrite
  dsimp only
  rw [hlen]

lemma dataStep_post {s : CState} {d : List ℕ} {s' : CState} {acts : List CAct}
    (hinv : remain s ≤ (s.maxbuffer : ℤ))
    (h : dataStep s d = some (s', acts)) :
    ((CAct.pause ∈ acts) ↔ ((s.maxbuffer : ℤ) < remain s')) ∧
    CAct.resume ∉ acts ∧
    (s'.paused = false → remain s' ≤ ((s'.maxbuffer : ℤ))) ∧
    s'.maxbuffer = s.maxbuffer := by
  unfold dataStep at h
  by_cases hrb : 0 < s.remainBytes
  · rw [if_pos hrb] at h
    split at h
    · cases h
    · next lf hlast =>
      have hne : s.data ≠ [] := by
        intro he
        rw [he] at hlast
        cases hlast
      by_cases hr2 : 0 < (tailWrite s lf (d.take s.remainBytes)).remainBytes
      · rw [if_pos hr2] at h
        injection h with h
        injection h with ha hb
        subst ha hb
        have hrm := remain_tailWrite s lf (d.take s.remainBytes) hne hrb hr2
        refine ⟨?_, by simp, ?_, (tailWrite_fields s lf _).2.1⟩
        · simp only [List.not_mem_nil, false_iff, not_lt, hrm]
          exact hinv
        · intro _
          rw [hrm, (tailWrite_fields s lf _).2.1]
          exact hinv
      · rw [if_neg hr2] at h
        injection h with h
        obtain ⟨hfst, hsnd⟩ := Prod.ext_iff.mp h
        obtain ⟨k1, k2, k3, k4⟩ := finishData_post (tailWrite s lf (d.take s.remainBytes))
          (d.drop (tailWrite s lf (d.take s.remainBytes)).remainBytes)
        rw [hfst] at k1 k3 k4
        rw [hsnd] at k1 k2
        rw [(tailWrite_fields s lf _).2.1] at k1 k4
        exact ⟨k1, k2, k3, k4⟩
  · rw [if_neg hrb] at h
    injection h with h
    obtain ⟨hfst, hsnd⟩ := Prod.ext_iff.mp h
    obtain ⟨k1, k2, k3, k4⟩ := finishData_post s d
    rw [hfst] at k1 k3 k4
    rw [hsnd] at k1 k2
    exact ⟨k1, k2, k3, k4⟩

lemma popStep_post (s : CState) :
    ((CAct.resume ∈ (popStep s).2.2) ↔
      (s.paused = true ∧ remain (popStep s).2.1 < (s.maxbuffer : ℤ))) ∧
    CAct.pause ∉ (popStep s).2.2 := by
  unfold popStep
  by_cases hp : (shiftQ s).paused
  · rw [if_pos hp]
    by_cases hlt : remain (shiftQ s) < (s.maxbuffer : ℤ)
    · rw [if_pos hlt]
      have hps : s.paused = true := (shiftQ_fields s).1 ▸ hp
      refine ⟨?_, by simp⟩
      simp only [List.mem_singleton, true_iff]
      exact ⟨hps, hlt⟩
    · rw [if_neg hlt]
      refine ⟨?_, by simp⟩
      simp only [List.not_mem_nil, false_iff, not_and]
      intro _
      exact hlt
  · rw [if_neg hp]
    have hps : s.paused = false := by
      rw [← (shiftQ_fields s).1]
      simpa using hp
    refine ⟨?_, (setReady_acts _ _).1⟩
    constructor
    · intro hm
      exact absurd hm (setReady_acts _ _).2
    · intro hcon
      rw [hps] at hcon
      cases hcon.1

lemma popStep_inv {s : CState}
    (hinv : s.paused = false → remain s ≤ (s.maxbuffer : ℤ)) :
    (popStep s).2.1.paused = false → remain (popStep s).2.1 ≤ ((popStep s).2.1.maxbuffer : ℤ) := by
  unfold popStep
  by_cases hp : (shiftQ s).paused
  · rw [if_pos hp]
    by_cases hlt : remain (shiftQ s) < (s.maxbuffer : ℤ)
    · rw [if_pos hlt]
      intro _
      exact le_of_lt hlt
    · rw [if_neg hlt]
      intro hfalse
      rw [hp] at hfalse
      cases hfalse
  · rw [if_neg hp]
    intro _
    have hps : s.paused = false := by
      rw [← (shiftQ_fields s).1]
      simpa using hp
    rw [remain_setReady, (setReady_fields _ _).2.2.2.1, (shiftQ_fields s).2.1]
    exact le_trans (remain_shiftQ_le s) (hinv hps)

/-- The backpressure invariant: in every reachable state, an unpaused
source implies `remain ≤ maxbuffer` (the component always pauses as soon
as a chunk pushes `remain` past the high watermark). -/
lemma creach_pause_inv {s : CState} (h : CReach s) :
    s.paused = false → remain s ≤ (s.maxbuffer : ℤ) := by
  induction h with
  | init its minb maxb =>
      intro _
      unfold initC remain
      simp
  | dataR hre hp heq ih =>
      intro hp'
      exact (dataStep_post (ih hp) heq).2.2.1 hp'
  | popR hre ih => exact popStep_inv ih
  | endR hre ih =>
      intro hp'
      unfold endStep at hp' ⊢
      rw [(setReady_fields _ _).2.2.1] at hp'
      rw [remain_setReady, (setReady_fields _ _).2.2.2.1]
      exact ih hp'
  | errR hre ih =>
      intro hp'
      unfold errStep endStep at hp' ⊢
      dsimp only at hp' ⊢
      rw [(setReady_fields _ _).2.2.1] at hp'
      rw [remain_setReady, (setReady_fields _ _).2.2.2.1]
      exact ih hp'

/-- C5: for every reachable session state, processing a chunk issues a
`readable.pause()` exactly when `remain > maxbuffer` afterwards (and never
a resume), and a pop (`latest`) issues a `readable.resume()` exactly when
the source is currently paused — a pause only this component can have
issued, as it is the source's sole controller during the session — and
`remain < maxbuffer` after the pop (and never a pause). -/
theorem chunked_pause_resume_policy (s : CState) (h : CReach s) :
    (∀ (d : List ℕ) (s' : CState) (acts : List CAct), s.paused = false →
        dataStep s d = some (s', acts) →
        ((CAct.pause ∈ acts) ↔ ((s.maxbuffer : ℤ) < remain s')) ∧ CAct.resume ∉ acts)
    ∧ ((CAct.resume ∈ (popStep s).2.2 ↔
          (s.paused = true ∧ remain (popStep s).2.1 < (s.maxbuffer : ℤ)))
       ∧ CAct.pause ∉ (popStep s).2.2) := by
  refine ⟨fun d s' acts hp heq => ?_, popStep_post s⟩
  obtain ⟨h1, h2, _, _⟩ := dataStep_post (creach_pause_inv h hp) heq
  exact ⟨h1, h2⟩

/-- Witness for C5 at the freshly constructed reassembler with
`itemsize = 1`, `minbuffer = 0`, `maxbuffer = 0`, receiving chunk `[7]`:
the push takes `remain` to `1 > 0 = maxbuffer`, so a pause is issued. -/
theorem chunked_pause_resume_policy_witness :
    ((CAct.pause ∈ ([CAct.pause] : List CAct)) ↔
      (((initC 1 0 0).maxbuffer : ℤ) < remain ⟨1, 0, 0, [[7]], 0, false, false, true⟩))
    ∧ CAct.resume ∉ ([CAct.pause] : List CAct) :=
  (chunked_pause_resume_policy (initC 1 0 0) (CReach.init 1 0 0)).1 [7]
    ⟨1, 0, 0, [[7]], 0, false, false, true⟩ [CAct.pause] rfl (by decide)

/-!
## Finish-event characterization (C6) and drained sessions (C10)
-/

lemma procAct_pres (p : MState × List MAct) (a : CAct) :
    (procAct p a).1.cache = p.1.cache ∧ (procAct p a).1.timerIdx = p.1.timerIdx := by
  cases a <;> exact ⟨rfl, rfl⟩

lemma procAct_no_finish (p : MState × List MAct) (a : CAct)
    (h : MAct.finishEv ∉ p.2) : MAct.finishEv ∉ (procAct p a).2 := by
  cases a <;> simp [procAct] <;> simp_all

lemma procAct_timers (p : MState × List MAct) (a : CAct) (ha : a ≠ CAct.errorEv) :
    (procAct p a).1.timers = p.1.timers := by
  cases a
  · rfl
  · rfl
  · rfl
  · rfl
  · exact absurd rfl ha

lemma foldl_procAct_pres (as : List CAct) : ∀ p : MState × List MAct,
    (as.foldl procAct p).1.cache = p.1.cache ∧
    (as.foldl procAct p).1.timerIdx = p.1.timerIdx := by
  induction as with
  | nil => exact fun p => ⟨rfl, rfl⟩
  | cons a as ih =>
      intro p
      rw [List.foldl_cons]
      exact ⟨(ih _).1.trans (procAct_pres p a).1, (ih _).2.trans (procAct_pres p a).2⟩

lemma foldl_procAct_no_finish (as : List CAct) : ∀ p : MState × List MAct,
    MAct.finishEv ∉ p.2 → MAct.finishEv ∉ (as.foldl procAct p).2 := by
  induction as with
  | nil => exact fun p h => h
  | cons a as ih =>
      intro p h
      rw [List.foldl_cons]
      exact ih _ (procAct_no_finish p a h)

lemma foldl_procAct_timers (as : List CAct) : ∀ p : MState × List MAct,
    (∀ a ∈ as, a ≠ CAct.errorEv) → (as.foldl procAct p).1.timers = p.1.timers := by
  induction as with
  | nil => exact fun p _ => rfl
  | cons a as ih =>
      intro p h
      rw [List.foldl_cons]
      exact (ih _ fun b hb => h b (List.mem_cons_of_mem a hb)).trans
        (procAct_timers p a (h a (List.mem_cons_self a as)))

lemma setReady_acts_no_error (s : CState) (b : Bool) :
    ∀ a ∈ (setReady s b).2, a ≠ CAct.errorEv := by
  unfold setReady
  split
  · simp
  · split <;> simp

lemma popStep_acts_no_error (s : CState) : ∀ a ∈ (popStep s).2.2, a ≠ CAct.errorEv := by
  unfold popStep
  by_cases hp : (shiftQ s).paused
  · rw [if_pos hp]
    by_cases hlt : remain (shiftQ s) < (s.maxbuffer : ℤ)
    · rw [if_pos hlt]
      simp
    · rw [if_neg hlt]
      simp
  · rw [if_neg hp]
    exact setReady_acts_no_error _ _

lemma tickFinish_finish (q : MState × List MAct) (fr : Option (List ℕ)) (fin : Bool)
    (hq : MAct.finishEv ∉ q.2) :
    ((MAct.finishEv ∈ (tickFinish q fr fin).2) ↔ (fr.isSome = true ∧ fin = true)) ∧
    (MAct.finishEv ∈ (tickFinish q fr fin).2 →
      (tickFinish q fr fin).1.timers = stopAt q.1.timers q.1.timerIdx ∧
      (tickFinish q fr fin).1.timerIdx = q.1.timerIdx) := by
  cases fr with
  | none => simp [tickFinish, hq]
  | some f =>
      cases fin with
      | false => simp [tickFinish, hq]
      | true => simp [tickFinish]

lemma tickCallback_post (m : MState) :
    ((MAct.finishEv ∈ (tickCallback m).2) ↔
      (∃ c, m.cache = some c ∧ (popStep c).1.isSome = true ∧
            (popStep c).2.1.finished = true))
    ∧ (MAct.finishEv ∈ (tickCallback m).2 →
        (tickCallback m).1.timers = stopAt m.timers m.timerIdx ∧
        (tickCallback m).1.timerIdx = m.timerIdx) := by
  unfold tickCallback
  cases hc : m.cache with
  | none =>
      constructor
      · simp
      · simp
  | some c =>
      dsimp only
      have hqf : MAct.finishEv ∉
          (processCActs {m with cache := some (popStep c).2.1} (popStep c).2.2).2 :=
        foldl_procAct_no_finish _ _ (by simp)
      obtain ⟨k1, k2⟩ := tickFinish_finish
        (processCActs {m with cache := some (popStep c).2.1} (popStep c).2.2)
        (popStep c).1 (popStep c).2.1.finished hqf
      have htm : (processCActs {m with cache := some (popStep c).2.1}
          (popStep c).2.2).1.timers = m.timers :=
        foldl_procAct_timers _ _ (popStep_acts_no_error c)
      have hti : (processCActs {m with cache := some (popStep c).2.1}
          (popStep c).2.2).1.timerIdx = m.timerIdx :=
        (foldl_procAct_pres _ _).2
      constructor
      · constructor
        · intro hm
          exact ⟨c, rfl, (k1.mp hm).1, (k1.mp hm).2⟩
        · intro hx
          obtain ⟨c', hcc, hfr, hfin⟩ := hx
          injection hcc with hcc
          subst hcc
          exact k1.mpr ⟨hfr, hfin⟩
      · intro hm
        obtain ⟨k2a, k2b⟩ := k2 hm
        rw [k2a, k2b, htm, hti]
        exact ⟨rfl, rfl⟩

/-- C6 amended: in any controller state, a tick emits `"finish"` exactly
when the fired interval is running, a frame was popped, and the
reassembler's `finished` flag is set — the frame queue need not have
drained to empty — and in that case the currently referenced clock is
stopped; `stop()` emits `"finish"` exactly when both the timer and the
cache references are present (which still holds after a natural finish, so
a later `stop()` emits a second `"finish"` for the same session). -/
theorem mediastream_finish_characterization (m : MState) :
    (∀ (i : ℕ) (m' : MState) (acts : List MAct),
        mstep m (MEv.tick i) = some (m', acts) →
        (((MAct.finishEv ∈ acts) ↔
           (m.timers[i]? = some TState.running ∧
            ∃ c, m.cache = some c ∧ (popStep c).1.isSome = true ∧
                 (popStep c).2.1.finished = true))
         ∧ (MAct.finishEv ∈ acts →
              m'.timers = stopAt m.timers m.timerIdx ∧ m'.timerIdx = m.timerIdx)))
    ∧ (∀ (m' : MState) (acts : List MAct),
        mstep m MEv.stopEv = some (m', acts) →
        ((MAct.finishEv ∈ acts) ↔ (m.timerIdx.isSome = true ∧ m.cache.isSome = true))) := by
  constructor
  · intro i m' acts h
    simp only [mstep] at h
    by_cases hrun : m.timers[i]? = some TState.running
    · rw [if_pos hrun] at h
      injection h with h
      have h1 : m' = (tickCallback m).1 := (congrArg Prod.fst h).symm
      have h2 : acts = (tickCallback m).2 := (congrArg Prod.snd h).symm
      subst h1
      subst h2
      obtain ⟨k1, k2⟩ := tickCallback_post m
      constructor
      · constructor
        · intro hm
          exact ⟨hrun, k1.mp hm⟩
        · intro hx
          exact k1.mpr hx.2
      · exact k2
    · rw [if_neg hrun] at h
      injection h with h
      have h2 : acts = ([] : List MAct) := (congrArg Prod.snd h).symm
      subst h2
      constructor
      · constructor
        · intro hm
          exact absurd hm (List.not_mem_nil _)
        · intro hx
          exact absurd hx.1 hrun
      · intro hm
        exact absurd hm (List.not_mem_nil _)
  · intro m' acts h
    simp only [mstep] at h
    by_cases hcond : (m.timerIdx.isSome && m.cache.isSome) = true
    · rw [if_pos hcond] at h
      injection h with h
      have h2 : acts = [MAct.finishEv] := (congrArg Prod.snd h).symm
      subst h2
      simp only [List.mem_singleton, true_iff]
      exact Bool.and_eq_true_iff.mp hcond
    · rw [if_neg hcond] at h
      injection h with h
      have h2 : acts = ([] : List MAct) := (congrArg Prod.snd h).symm
      subst h2
      constructor
      · intro hm
        exact absurd hm (List.not_mem_nil _)
      · intro hand
        exact absurd (Bool.and_eq_true_iff.mpr hand) hcond

/-- Witness for C6 at a controller holding a running clock and a live
cache: `stop()` emits `"finish"`. -/
theorem mediastream_finish_characterization_witness :
    (MAct.finishEv ∈ ([MAct.finishEv] : List MAct)) ↔
      (((⟨some (initC 1 0 9), [TState.running], some 0, false, some true⟩ :
          MState).timerIdx.isSome = true) ∧
       ((⟨some (initC 1 0 9), [TState.running], some 0, false, some true⟩ :
          MState).cache.isSome = true)) :=
  (mediastream_finish_characterization
      ⟨some (initC 1 0 9), [TState.running], some 0, false, some true⟩).2
    ⟨none, [TState.done], none, false, some true⟩ [MAct.finishEv] (by decide)

/-- C10 amended: a session whose source has ended with the frame queue
*completely* empty — no complete frame and no unfinished tail, in
particular an empty source — never emits `"finish"`: every tick pops
nothing, delivers nothing, emits nothing and leaves the controller state
(including every clock) unchanged, until `stop()` is called.  (If instead
an unfinished tail is buffered, the tick delivers the zero-padded tail and
does emit `"finish"` — see the counterexample.) -/
theorem drained_session_ticks_noop (m : MState) (c : CState)
    (hc : m.cache = some c) (hd : c.data = []) (hrb : c.remainBytes = 0)
    (hf : c.finished = true) (hr : c.ready = true) (hp : c.paused = false)
    (evs : List MEv) (hevs : ∀ e ∈ evs, ∃ i, e = MEv.tick i) :
    runM m evs = some (m, []) := by
  have hshift : shiftQ c = c := by
    unfold shiftQ
    rw [hd]
    show ({c with data := ([] : List (List ℕ))} : CState) = c
    rw [← hd]
  have hpop : popStep c = (none, c, []) := by
    unfold popStep
    rw [hshift, hp]
    simp only [Bool.false_eq_true, if_false]
    rw [setReady]
    rw [hf, hr]
    simp only [Bool.true_or, if_pos rfl]
    rw [hd]
    rfl
  have hmc : ({m with cache := some c} : MState) = m := by
    rw [← hc]
  have htick : ∀ i : ℕ, mstep m (MEv.tick i) = some (m, []) := by
    intro i
    simp only [mstep]
    by_cases hrun : m.timers[i]? = some TState.running
    · rw [if_pos hrun]
      unfold tickCallback
      rw [hc]
      dsimp only
      rw [hpop]
      show some (({m with cache := some c} : MState), ([] : List MAct)) = some (m, [])
      rw [hmc]
    · rw [if_neg hrun]
  clear hc hd hrb hf hr hp hshift hpop hmc
  induction evs with
  | nil => rfl
  | cons e es ih =>
      obtain ⟨i, rfl⟩ := hevs e (List.mem_cons_self e es)
      show runM m (MEv.tick i :: es) = some (m, [])
      rw [runM, htick i]
      show Option.map (fun q => (q.1, ([] : List MAct) ++ q.2)) (runM m es) = some (m, [])
      rw [ih fun e he => hevs e (List.mem_cons_of_mem _ he)]
      rfl

/-- Witness for C10 at a session that ended with nothing buffered: two
ticks of the running clock change nothing and emit nothing. -/
theorem drained_session_ticks_noop_witness :
    runM (⟨some ⟨2, 1, 9, [], 0, true, true, false⟩,
            [TState.running], some 0, false, some true⟩ : MState)
        [MEv.tick 0, MEv.tick 0]
      = some (⟨some ⟨2, 1, 9, [], 0, true, true, false⟩,
               [TState.running], some 0, false, some true⟩, []) :=
  drained_session_ticks_noop _ ⟨2, 1, 9, [], 0, true, true, false⟩ rfl rfl rfl rfl rfl rfl
    [MEv.tick 0, MEv.tick 0] (by
      intro e he
      simp only [List.mem_cons, List.not_mem_nil, or_false] at he
      rcases he with rfl | rfl <;> exact ⟨0, rfl⟩)
